import Mathlib

/-!
Verification development for the Public API Compatibility Verification
subsystem of `cargo-rbmt` (file `cargo-rbmt/src/api.rs`).

The Rust code is shallowly embedded as pure Lean functions.  External
effects (running `cargo rustdoc`, `git` commands, writing files, printing
diagnostics) are made explicit:

* extraction of a public-API snapshot is a parameter
  `ex : ... → FeatureConfig → Except String PublicApi`, standing for the
  `cargo rustdoc` invocation plus JSON parsing for one package and one
  feature configuration (possibly revision-dependent in the semver flow);
* every observable action (an extraction run, a `git switch`, a file
  write, a `git status` query, a warning or diagnostic line) is recorded
  in an event trace, in program order;
* the checked-out revision of the working tree is threaded through the
  semver flow explicitly and returned as the final revision.

Purely informational progress prints (`quiet_println "Running API
check..."` and similar) are not modelled; warnings and `eprintln`
diagnostics are, since the specification talks about them.
-/

/-- One public item of a package: a fully qualified name together with the
full textual signature (the `public_api` crate renders an item as its
signature line; `name` is the fully qualified path used to match items
across snapshots). -/
structure Item where
  name : String
  sig : String
deriving DecidableEq

/-- A public-API snapshot: the set of public items of one package under one
feature configuration at one revision (`public_api::PublicApi`), modelled
as a list of items. -/
abbrev PublicApi := List Item

/-- Result of diffing two snapshots (`public_api::diff::PublicApiDiff`). -/
structure ApiDiff where
  added : List Item
  removed : List Item
  changed : List (Item × Item)
deriving DecidableEq

/-- Does the snapshot contain an item with the given fully qualified name? -/
def hasName (api : PublicApi) (n : String) : Bool :=
  api.any (fun it => it.name = n)

/-- First item of the snapshot with the given fully qualified name. -/
def lookupName (api : PublicApi) (n : String) : Option Item :=
  api.find? (fun it => it.name = n)

/-- Modelled from the spec: the API Diff Engine (the external `public_api`
crate's `PublicApiDiff::between`, §4.3 of the spec, which the repository
only calls).  `removed` holds items of `old` whose name is absent from
`new`; `added` holds items of `new` whose name is absent from `old`; an
item present in both under the same fully qualified name but with
different signature text is classified as one `changed` pair, and a
byte-identical item is in none of the three sets. -/
def diffApis (old : PublicApi) (niu : PublicApi) : ApiDiff :=
  { removed := old.filter (fun o => !(hasName niu o.name))
    added := niu.filter (fun n => !(hasName old n.name))
    changed := old.filterMap (fun o =>
      match lookupName niu o.name with
      | some n => if o.sig = n.sig then none else some (o, n)
      | none => none) }

/-- Feature configurations to test for API generation (`enum FeatureConfig`). -/
inductive FeatureConfig where
  | none
  | alloc
  | all
deriving DecidableEq

/-- `FeatureConfig::filename`. -/
def FeatureConfig.filename : FeatureConfig → String
  | .none => "no-features.txt"
  | .alloc => "alloc-only.txt"
  | .all => "all-features.txt"

/-- `FeatureConfig::display_name`. -/
def FeatureConfig.display_name : FeatureConfig → String
  | .none => "no-features"
  | .alloc => "alloc-only"
  | .all => "all-features"

/-- `FeatureConfig::cargo_args`. -/
def FeatureConfig.cargo_args : FeatureConfig → List String
  | .none => ["--no-default-features"]
  | .alloc => ["--no-default-features", "--features=alloc"]
  | .all => ["--all-features"]

/-- The fixed catalog order `[FeatureConfig::None, FeatureConfig::Alloc,
FeatureConfig::All]` iterated by `get_package_apis` and `check_semver`. -/
def catalog : List FeatureConfig :=
  [FeatureConfig.none, FeatureConfig.alloc, FeatureConfig.all]

/-!  Association lists with unique keys model the two `HashMap`s of the
source (`PackageApis = HashMap<FeatureConfig, PublicApi>` and the
package-name-keyed maps of `check_semver`).  `alistInsert` mirrors
`HashMap::insert` (overwrite), `alistRemove` mirrors `HashMap::remove`
(return the value, if any, and delete the entry). -/

/-- First value bound to a key. -/
def alistFind {α β : Type} [DecidableEq α] : List (α × β) → α → Option β
  | [], _ => Option.none
  | (k, v) :: rest, a => if k = a then some v else alistFind rest a

/-- Delete every binding of a key. -/
def alistErase {α β : Type} [DecidableEq α] : List (α × β) → α → List (α × β)
  | [], _ => []
  | (k, v) :: rest, a => if k = a then alistErase rest a else (k, v) :: alistErase rest a

/-- `HashMap::remove`: the removed value (if present) with the map after
removal; an absent key leaves the map untouched. -/
def alistRemove {α β : Type} [DecidableEq α] (m : List (α × β)) (a : α) :
    Option β × List (α × β) :=
  match alistFind m a with
  | some v => (some v, alistErase m a)
  | Option.none => (Option.none, m)

/-- `HashMap::insert`: overwrite any existing binding. -/
def alistInsert {α β : Type} [DecidableEq α] (m : List (α × β)) (a : α) (b : β) :
    List (α × β) :=
  alistErase m a ++ [(a, b)]

/-- `PackageApis`: the per-package map from feature configuration to
snapshot (`HashMap<FeatureConfig, public_api::PublicApi>`). -/
abbrev PackageApis := List (FeatureConfig × PublicApi)

/-- The per-package map holding one snapshot per catalog entry obtained
from a (successful) extraction function. -/
def apisOfFun (g : FeatureConfig → PublicApi) : PackageApis :=
  [(FeatureConfig.none, g FeatureConfig.none),
   (FeatureConfig.alloc, g FeatureConfig.alloc),
   (FeatureConfig.all, g FeatureConfig.all)]

/-- The condition `!diff.removed.is_empty() || !diff.changed.is_empty()`
used by both `check_apis` and `check_semver` to classify a diff as a
policy violation (non-additive features, resp. a breaking change). -/
def isBreaking (d : ApiDiff) : Bool :=
  !d.removed.isEmpty || !d.changed.isEmpty

/-- Observable actions of the API-check task, recorded in program order. -/
inductive Event where
  /-- One `cargo rustdoc` + parse run for a package and configuration,
  performed while `rev` is checked out. -/
  | extract (pkg : String) (cfg : FeatureConfig) (rev : String)
  /-- `git switch --detach <ref>` (the switch to the baseline). -/
  | gitSwitchDetach (r : String)
  /-- `git switch <ref>` (the restoration switch). -/
  | gitSwitch (r : String)
  /-- `fs::write` of one API snapshot file. -/
  | write (pkg : String) (file : String) (content : PublicApi)
  /-- `git status --porcelain api` query. -/
  | gitStatus
  /-- `git diff --color=always api` shown for context. -/
  | gitDiff
  /-- A `quiet_println` warning. -/
  | info (s : String)
  /-- An `eprintln` diagnostic line. -/
  | errLine (s : String)
deriving DecidableEq

/-- Boolean success test on `Except` results. -/
def exceptOk {ε α : Type} : Except ε α → Bool
  | .ok _ => true
  | .error _ => false

instance {ε α : Type} [DecidableEq ε] [DecidableEq α] : DecidableEq (Except ε α) :=
  fun x y =>
    match x, y with
    | .ok a, .ok b =>
      if h : a = b then isTrue (by rw [h]) else isFalse (fun hc => h (by cases hc; rfl))
    | .error a, .error b =>
      if h : a = b then isTrue (by rw [h]) else isFalse (fun hc => h (by cases hc; rfl))
    | .ok _, .error _ => isFalse (fun hc => Except.noConfusion hc)
    | .error _, .ok _ => isFalse (fun hc => Except.noConfusion hc)

/-!  `get_package_apis`: one extraction per catalog entry, in catalog
order, inserting each snapshot into the map; the `?` on the rustdoc
invocation and on JSON parsing propagates the first error immediately.
The second component of the result is the list of configurations for
which an extraction was actually attempted, in order. -/

/-- The loop body of `get_package_apis` over the remaining catalog. -/
def getPackageApisGo (ex : FeatureConfig → Except String PublicApi) :
    List FeatureConfig → PackageApis → Except String PackageApis × List FeatureConfig
  | [], acc => (.ok acc, [])
  | c :: cs, acc =>
    match ex c with
    | .error e => (.error e, [c])
    | .ok api =>
      match getPackageApisGo ex cs (alistInsert acc c api) with
      | (r, tr) => (r, c :: tr)

/-- `get_package_apis` for one package, parametrized by the extraction
function for that package. -/
def get_package_apis (ex : FeatureConfig → Except String PublicApi) :
    Except String PackageApis × List FeatureConfig :=
  getPackageApisGo ex catalog []

/-!  `check_apis`: the no-baseline ("local drift detection") flow.  Per
package: extract all snapshots, write one file per configuration under
`api/<package>/<config-file-name>`, then run the additive-features check;
after the per-package loop, query `git status --porcelain api` and fail
when the (trimmed) output is non-empty. -/

/-- The `str::trim` applied to the `git status` output, modelled on the
character list (leading and trailing whitespace removed). -/
def strTrim (s : String) : String :=
  ⟨((s.data.dropWhile Char.isWhitespace).reverse.dropWhile Char.isWhitespace).reverse⟩

/-- The on-disk path `api/<package>/<config-file-name>` of a snapshot
file (`API_DIR` is the constant `"api"`). -/
def apiPath (pkg : String) (c : FeatureConfig) : String :=
  "api/" ++ pkg ++ "/" ++ c.filename

/-- The `eprintln` block printed when non-additive features are detected
in a package: every removed item, and for every changed item both the old
and the new signature. -/
def reportNonAdditive (pkg : String) (d : ApiDiff) : List Event :=
  [Event.errLine ("Non-additive features detected in " ++ pkg ++ ":")]
    ++ (if d.removed.isEmpty then [] else
          Event.errLine "  Items removed when enabling features:"
            :: d.removed.map (fun it => Event.errLine ("    - " ++ it.sig)))
    ++ (if d.changed.isEmpty then [] else
          Event.errLine "  Items changed when enabling features:"
            :: (d.changed.map (fun q =>
                  [Event.errLine ("    - old: " ++ q.1.sig),
                   Event.errLine ("      new: " ++ q.2.sig)])).flatten)

/-- The additive-features check of `check_apis` (lines 155-182 of
`api.rs`): remove the `None` and `All` snapshots from the package map,
diff them, and fail with the full report when `removed` or `changed` is
non-empty. -/
def additiveCheck (pkg : String) (apis : PackageApis) : Except String Unit × List Event :=
  match alistRemove apis FeatureConfig.none with
  | (Option.none, _) => (.error "No-features config not found", [])
  | (some nf, apis1) =>
    match alistRemove apis1 FeatureConfig.all with
    | (Option.none, _) => (.error "All-features config not found", [])
    | (some af, _) =>
      let d := diffApis nf af
      if isBreaking d then
        (.error "Non-additive features detected", reportNonAdditive pkg d)
      else (.ok (), [])

/-- The body of `check_apis`'s per-package loop: extraction, the three
file writes, then the additive-features check. -/
def processPackage (ex : FeatureConfig → Except String PublicApi) (pkg : String) :
    Except String Unit × List Event :=
  match getPackageApisGo ex catalog [] with
  | (.error e, _) => (.error e, [])
  | (.ok apis, _) =>
    match additiveCheck pkg apis with
    | (r, ev) => (r, apis.map (fun q => Event.write pkg (apiPath pkg q.1) q.2) ++ ev)

/-- The per-package loop of `check_apis`; the `?` and the early
`return Err` abort the loop at the first failing package. -/
def checkApisGo (ex : String → FeatureConfig → Except String PublicApi) :
    List String → Except String Unit × List Event
  | [] => (.ok (), [])
  | p :: rest =>
    match processPackage (ex p) p with
    | (.error e, ev) => (.error e, ev)
    | (.ok _, ev) =>
      match checkApisGo ex rest with
      | (r, ev2) => (r, ev ++ ev2)

/-- `check_apis`, parametrized by the extraction function and by the
output of the `git status --porcelain api` query. -/
def check_apis (ex : String → FeatureConfig → Except String PublicApi)
    (pkgs : List String) (statusOut : String) : Except String Unit × List Event :=
  match checkApisGo ex pkgs with
  | (.error e, ev) => (.error e, ev)
  | (.ok _, ev) =>
    if strTrim statusOut = "" then
      (.ok (), ev ++ [Event.gitStatus, Event.info "No changes to the current public API"])
    else
      (.error "You have introduced changes to the public API, commit the changes to api/ currently in your working directory",
       ev ++ [Event.gitStatus, Event.gitDiff, Event.errLine ""])

/-!  `check_semver`: the baseline flow.  Extract current snapshots for all
packages, `git switch --detach` to the baseline, extract baseline
snapshots, `git switch` back, then compare per package and configuration.
The extraction function takes the currently checked-out revision first,
then the package name, then the configuration; `git rev-parse
--abbrev-ref HEAD` is modelled as the given (already trimmed) `origRef`,
and the `git switch` commands themselves are modelled as always
succeeding, their effect being the change of checked-out revision. -/

/-- The map from package name to `PackageApis` built by the two
extraction loops of `check_semver`, with the trace of extraction events;
`rev` is the revision checked out while the loop runs. -/
def extractAllGo (ex : String → FeatureConfig → Except String PublicApi) (rev : String) :
    List String → List (String × PackageApis) →
    Except String (List (String × PackageApis)) × List Event
  | [], acc => (.ok acc, [])
  | p :: rest, acc =>
    match getPackageApisGo (ex p) catalog [] with
    | (.error e, tr) => (.error e, tr.map (fun c => Event.extract p c rev))
    | (.ok apis, tr) =>
      match extractAllGo ex rev rest (alistInsert acc p apis) with
      | (r, ev) => (r, tr.map (fun c => Event.extract p c rev) ++ ev)

/-- The inner configuration loop of `check_semver`'s comparison phase:
remove each catalog configuration from the baseline and current package
maps, diff baseline against current, and on the first breaking
configuration print the diagnostic line and fail. -/
def compareConfigs (pkg : String) :
    List FeatureConfig → PackageApis → PackageApis → Except String Unit × List Event
  | [], _, _ => (.ok (), [])
  | c :: cs, bm, cm =>
    match alistRemove bm c with
    | (Option.none, _) => (.error "Config not found in baseline", [])
    | (some bApi, bm1) =>
      match alistRemove cm c with
      | (Option.none, _) => (.error "Config not found in current", [])
      | (some cApi, cm1) =>
        let d := diffApis bApi cApi
        if isBreaking d then
          (.error "Semver compatibility check failed: breaking changes detected",
           [Event.errLine ("API changes detected in " ++ pkg ++ " (" ++ c.display_name ++ ")")])
        else compareConfigs pkg cs bm1 cm1

/-- The per-package comparison loop of `check_semver`: a package missing
from the baseline or the current map is skipped with a warning; otherwise
its configurations are compared. -/
def comparePhase :
    List (String × PackageApis) → List (String × PackageApis) → List String →
    Except String Unit × List Event
  | _, _, [] => (.ok (), [])
  | bMap, cMap, p :: rest =>
    match alistRemove bMap p with
    | (Option.none, _) =>
      match comparePhase bMap cMap rest with
      | (r, ev) =>
        (r, Event.info ("Warning: Package '" ++ p ++ "' not found in baseline - skipping comparison") :: ev)
    | (some bApis, bMap1) =>
      match alistRemove cMap p with
      | (Option.none, _) =>
        match comparePhase bMap1 cMap rest with
        | (r, ev) =>
          (r, Event.info ("Warning: Package '" ++ p ++ "' exists in baseline but not in current - possible removal") :: ev)
      | (some cApis, cMap1) =>
        match compareConfigs p catalog bApis cApis with
        | (.error e, ev) => (.error e, ev)
        | (.ok _, ev) =>
          match comparePhase bMap1 cMap1 rest with
          | (r, ev2) => (r, ev ++ ev2)

/-- Outcome of the semver flow: the result, the event trace, and the
revision left checked out in the working tree. -/
structure SemverOutcome where
  result : Except String Unit
  trace : List Event
  finalRev : String
deriving DecidableEq

/-- `check_semver`.  Note the error propagation on the baseline
extraction loop: it returns before the restoring `git switch`, exactly as
the `?` on line 234 of `api.rs` does. -/
def check_semver (ex : String → String → FeatureConfig → Except String PublicApi)
    (pkgs : List String) (origRef baselineRef : String) : SemverOutcome :=
  match extractAllGo (ex origRef) origRef pkgs [] with
  | (.error e, ev) => ⟨.error e, ev, origRef⟩
  | (.ok currentApis, evCur) =>
    let evSwitch := evCur ++ [Event.gitSwitchDetach baselineRef]
    match extractAllGo (ex baselineRef) baselineRef pkgs [] with
    | (.error e, ev) => ⟨.error e, evSwitch ++ ev, baselineRef⟩
    | (.ok baselineApis, evBase) =>
      let evBack := evSwitch ++ evBase ++ [Event.gitSwitch origRef]
      match comparePhase baselineApis currentApis pkgs with
      | (r, ev) => ⟨r, evBack ++ ev, origRef⟩

/-- `run`: dispatch on the presence of a baseline ref (toolchain check and
package discovery are external collaborators and not modelled; the
extraction function for the no-baseline flow runs at the original
revision). -/
def runTask (ex : String → String → FeatureConfig → Except String PublicApi)
    (pkgs : List String) (origRef : String) (baseline : Option String)
    (statusOut : String) : Except String Unit × List Event :=
  match baseline with
  | some baselineRef =>
    match check_semver ex pkgs origRef baselineRef with
    | o => (o.result, o.trace)
  | Option.none => check_apis (ex origRef) pkgs statusOut

/-!  Helper lemmas about the association-list maps. -/

theorem alistErase_of_find_none {α β : Type} [DecidableEq α]
    (m : List (α × β)) (a : α) (h : alistFind m a = Option.none) :
    alistErase m a = m := by
  induction m with
  | nil => rfl
  | cons kv rest ih =>
    obtain ⟨k, v⟩ := kv
    by_cases hk : k = a
    · simp [alistFind, hk] at h
    · simp only [alistFind, hk, if_neg hk] at h
      simp [alistErase, hk, ih h]

theorem alistFind_append {α β : Type} [DecidableEq α]
    (l1 l2 : List (α × β)) (a : α) :
    alistFind (l1 ++ l2) a =
      match alistFind l1 a with
      | some v => some v
      | Option.none => alistFind l2 a := by
  induction l1 with
  | nil => simp [alistFind]
  | cons kv rest ih =>
    obtain ⟨k, v⟩ := kv
    by_cases hk : k = a
    · simp [alistFind, hk]
    · simp [alistFind, hk, ih]

theorem alistFind_erase_ne {α β : Type} [DecidableEq α]
    (m : List (α × β)) (a k : α) (hak : a ≠ k) :
    alistFind (alistErase m a) k = alistFind m k := by
  induction m with
  | nil => rfl
  | cons kv rest ih =>
    obtain ⟨k1, v⟩ := kv
    by_cases h1 : k1 = a
    · have hka : k1 ≠ k := by rw [h1]; exact hak
      simp [alistErase, alistFind, h1, hka, hak, ih]
    · by_cases h2 : k1 = k
      · simp [alistErase, alistFind, h1, h2, Ne.symm hak]
      · simp [alistErase, alistFind, h1, h2, ih]

theorem alistFind_map_self_none {β : Type} (g : String → β)
    (l : List String) (p : String) (hp : p ∉ l) :
    alistFind (l.map (fun q => (q, g q))) p = Option.none := by
  induction l with
  | nil => rfl
  | cons q rest ih =>
    have hq : q ≠ p := by
      intro h
      subst h
      exact hp (List.mem_cons_self q rest)
    have hrest : p ∉ rest := fun h => hp (List.mem_cons_of_mem q h)
    simp [alistFind, hq, ih hrest]

/-!  Helper lemmas about `get_package_apis`. -/

theorem getPA_ok_concrete (ex : FeatureConfig → Except String PublicApi)
    (g : FeatureConfig → PublicApi) (h : ∀ c, ex c = .ok (g c)) :
    getPackageApisGo ex catalog [] = (.ok (apisOfFun g), catalog) := by
  simp [catalog, getPackageApisGo, h, alistInsert, alistErase, apisOfFun]

theorem getPA_isOk_trace (ex : FeatureConfig → Except String PublicApi) :
    ∀ (cs : List FeatureConfig) (acc : PackageApis),
    exceptOk (getPackageApisGo ex cs acc).1 = true →
    (getPackageApisGo ex cs acc).2 = cs := by
  intro cs
  induction cs with
  | nil => intro acc _; rfl
  | cons c rest ih =>
    intro acc hok
    rcases hx : ex c with e | api
    · simp [getPackageApisGo, hx, exceptOk] at hok
    · simp only [getPackageApisGo, hx] at hok ⊢
      rcases hgo : getPackageApisGo ex rest (alistInsert acc c api) with ⟨r, tr⟩
      simp only [hgo] at hok ⊢
      have := ih (alistInsert acc c api)
      rw [hgo] at this
      rw [show ((r, tr).2 = rest) = (tr = rest) from rfl] at this
      rw [this hok]

/-!  Helper lemmas about the extraction loops of `check_semver`. -/

/-- Is an event a `git switch --detach`? -/
def isDetach : Event → Bool
  | .gitSwitchDetach _ => true
  | _ => false

/-- Is an event a plain `git switch` (the restoration switch)? -/
def isRestore : Event → Bool
  | .gitSwitch _ => true
  | _ => false

theorem extractAllGo_events (ex : String → FeatureConfig → Except String PublicApi)
    (rev : String) :
    ∀ (pkgs : List String) (acc : List (String × PackageApis)),
    ∀ e ∈ (extractAllGo ex rev pkgs acc).2, ∃ p c, e = Event.extract p c rev := by
  intro pkgs
  induction pkgs with
  | nil => intro acc e he; simp [extractAllGo] at he
  | cons p rest ih =>
    intro acc e he
    rcases hgo : getPackageApisGo (ex p) catalog [] with ⟨r, tr⟩
    cases r with
    | error err =>
      simp only [extractAllGo, hgo] at he
      rcases List.mem_map.mp he with ⟨c, _, hc⟩
      exact ⟨p, c, hc.symm⟩
    | ok apis =>
      rcases hgo2 : extractAllGo ex rev rest (alistInsert acc p apis) with ⟨r2, ev2⟩
      simp only [extractAllGo, hgo, hgo2] at he
      rcases List.mem_append.mp he with h1 | h2
      · rcases List.mem_map.mp h1 with ⟨c, _, hc⟩
        exact ⟨p, c, hc.symm⟩
      · have := ih (alistInsert acc p apis) e
        rw [hgo2] at this
        exact this h2

theorem extractAllGo_ok_events (ex : String → FeatureConfig → Except String PublicApi)
    (rev : String) :
    ∀ (pkgs : List String) (acc : List (String × PackageApis)),
    exceptOk (extractAllGo ex rev pkgs acc).1 = true →
    ∀ p ∈ pkgs, ∀ c ∈ catalog, Event.extract p c rev ∈ (extractAllGo ex rev pkgs acc).2 := by
  intro pkgs
  induction pkgs with
  | nil => intro acc _ p hp; simp at hp
  | cons q rest ih =>
    intro acc hok p hp c hc
    rcases hgo : getPackageApisGo (ex q) catalog [] with ⟨r, tr⟩
    cases r with
    | error err => simp [extractAllGo, hgo, exceptOk] at hok
    | ok apis =>
      rcases hgo2 : extractAllGo ex rev rest (alistInsert acc q apis) with ⟨r2, ev2⟩
      simp only [extractAllGo, hgo, hgo2] at hok ⊢
      have htr : tr = catalog := by
        have := getPA_isOk_trace (ex q) catalog []
        rw [hgo] at this
        exact this rfl
      rcases List.mem_cons.mp hp with hpq | hprest
      · subst hpq
        apply List.mem_append.mpr
        exact Or.inl (List.mem_map.mpr ⟨c, by rw [htr]; exact hc, rfl⟩)
      · have := ih (alistInsert acc q apis)
        rw [hgo2] at this
        exact List.mem_append.mpr (Or.inr (this hok p hprest c hc))

theorem extractAllGo_ok_shape (ex : String → FeatureConfig → Except String PublicApi)
    (rev : String) (f : String → FeatureConfig → PublicApi) :
    ∀ (pkgs : List String) (acc : List (String × PackageApis)),
    pkgs.Nodup →
    (∀ p ∈ pkgs, alistFind acc p = Option.none) →
    (∀ p ∈ pkgs, ∀ c, ex p c = .ok (f p c)) →
    extractAllGo ex rev pkgs acc =
      (.ok (acc ++ pkgs.map (fun p => (p, apisOfFun (f p)))),
       (pkgs.map (fun p => catalog.map (fun c => Event.extract p c rev))).flatten) := by
  intro pkgs
  induction pkgs with
  | nil => intro acc _ _ _; simp [extractAllGo]
  | cons p rest ih =>
    intro acc hnd hfresh hex
    have hexp : ∀ c, ex p c = .ok (f p c) := hex p (List.mem_cons_self p rest)
    have hgo := getPA_ok_concrete (ex p) (f p) hexp
    have hfreshp : alistFind acc p = Option.none := hfresh p (List.mem_cons_self p rest)
    have hins : alistInsert acc p (apisOfFun (f p)) = acc ++ [(p, apisOfFun (f p))] := by
      simp [alistInsert, alistErase_of_find_none acc p hfreshp]
    have hnd2 : rest.Nodup := (List.nodup_cons.mp hnd).2
    have hpnr : p ∉ rest := (List.nodup_cons.mp hnd).1
    have hfresh2 : ∀ q ∈ rest, alistFind (acc ++ [(p, apisOfFun (f p))]) q = Option.none := by
      intro q hq
      rw [alistFind_append]
      have h1 : alistFind acc q = Option.none := hfresh q (List.mem_cons_of_mem p hq)
      have hqp : p ≠ q := by
        intro h
        subst h
        exact hpnr hq
      simp [h1, alistFind, hqp]
    have hex2 : ∀ q ∈ rest, ∀ c, ex q c = .ok (f q c) :=
      fun q hq => hex q (List.mem_cons_of_mem p hq)
    have ihr := ih (acc ++ [(p, apisOfFun (f p))]) hnd2 hfresh2 hex2
    simp only [extractAllGo, hgo, hins, ihr]
    simp

/-!  Helper lemmas about the comparison phase of `check_semver`. -/

theorem isBreaking_false_iff (d : ApiDiff) :
    isBreaking d = false ↔ d.removed = [] ∧ d.changed = [] := by
  simp [isBreaking, List.isEmpty_iff]

theorem compareConfigs_complete (pkg : String) (g h : FeatureConfig → PublicApi) :
    exceptOk (compareConfigs pkg catalog (apisOfFun g) (apisOfFun h)).1 = true ↔
    ∀ c ∈ catalog, isBreaking (diffApis (g c) (h c)) = false := by
  rcases hb1 : isBreaking (diffApis (g FeatureConfig.none) (h FeatureConfig.none)) with _ | _
  · rcases hb2 : isBreaking (diffApis (g FeatureConfig.alloc) (h FeatureConfig.alloc)) with _ | _
    · rcases hb3 : isBreaking (diffApis (g FeatureConfig.all) (h FeatureConfig.all)) with _ | _
      · simp [compareConfigs, catalog, apisOfFun, alistRemove, alistFind, alistErase,
              hb1, hb2, hb3, exceptOk]
      · simp [compareConfigs, catalog, apisOfFun, alistRemove, alistFind, alistErase,
              hb1, hb2, hb3, exceptOk]
    · simp [compareConfigs, catalog, apisOfFun, alistRemove, alistFind, alistErase,
            hb1, hb2, exceptOk]
  · simp [compareConfigs, catalog, apisOfFun, alistRemove, alistFind, alistErase, hb1, exceptOk]

theorem alistFind_cons_self {α β : Type} [DecidableEq α] (a : α) (v : β) (m : List (α × β)) :
    alistFind ((a, v) :: m) a = some v := by
  simp [alistFind]

theorem alistRemove_of_find_some {α β : Type} [DecidableEq α]
    {m : List (α × β)} {a : α} {v : β} (h : alistFind m a = some v) :
    alistRemove m a = (some v, alistErase m a) := by
  simp [alistRemove, h]

theorem alistRemove_of_find_none {α β : Type} [DecidableEq α]
    {m : List (α × β)} {a : α} (h : alistFind m a = Option.none) :
    alistRemove m a = (Option.none, m) := by
  simp [alistRemove, h]

theorem alistErase_cons_self {α β : Type} [DecidableEq α] (a : α) (v : β) (m : List (α × β)) :
    alistErase ((a, v) :: m) a = alistErase m a := by
  simp [alistErase]

theorem comparePhase_aligned (bApi cApi : String → FeatureConfig → PublicApi) :
    ∀ (pkgs : List String), pkgs.Nodup →
    (exceptOk (comparePhase (pkgs.map (fun p => (p, apisOfFun (bApi p))))
        (pkgs.map (fun p => (p, apisOfFun (cApi p)))) pkgs).1 = true ↔
      ∀ p ∈ pkgs, ∀ c ∈ catalog, isBreaking (diffApis (bApi p c) (cApi p c)) = false) := by
  intro pkgs
  induction pkgs with
  | nil => intro _; simp [comparePhase, exceptOk]
  | cons p rest ih =>
    intro hnd
    have hpnr : p ∉ rest := (List.nodup_cons.mp hnd).1
    have hnd2 : rest.Nodup := (List.nodup_cons.mp hnd).2
    have hremb : alistRemove ((p, apisOfFun (bApi p)) :: rest.map (fun q => (q, apisOfFun (bApi q)))) p
        = (some (apisOfFun (bApi p)), rest.map (fun q => (q, apisOfFun (bApi q)))) := by
      rw [alistRemove_of_find_some (alistFind_cons_self p _ _), alistErase_cons_self,
          alistErase_of_find_none _ p (alistFind_map_self_none _ rest p hpnr)]
    have hremc : alistRemove ((p, apisOfFun (cApi p)) :: rest.map (fun q => (q, apisOfFun (cApi q)))) p
        = (some (apisOfFun (cApi p)), rest.map (fun q => (q, apisOfFun (cApi q)))) := by
      rw [alistRemove_of_find_some (alistFind_cons_self p _ _), alistErase_cons_self,
          alistErase_of_find_none _ p (alistFind_map_self_none _ rest p hpnr)]
    rcases hcc : compareConfigs p catalog (apisOfFun (bApi p)) (apisOfFun (cApi p)) with ⟨rc, evc⟩
    cases rc with
    | error e =>
      have hnb : ¬ ∀ c ∈ catalog, isBreaking (diffApis (bApi p c) (cApi p c)) = false := by
        intro hall
        have hok := (compareConfigs_complete p (bApi p) (cApi p)).mpr hall
        rw [hcc] at hok
        simp [exceptOk] at hok
      simp only [List.map_cons, comparePhase, hremb, hremc, hcc]
      exact iff_of_false (by simp [exceptOk])
        (fun hall => hnb (fun c hc => hall p (List.mem_cons_self p rest) c hc))
    | ok u =>
      have hb : ∀ c ∈ catalog, isBreaking (diffApis (bApi p c) (cApi p c)) = false := by
        have hok := (compareConfigs_complete p (bApi p) (cApi p)).mp
        rw [hcc] at hok
        exact hok (by simp [exceptOk])
      rcases hcp : comparePhase (rest.map (fun q => (q, apisOfFun (bApi q))))
          (rest.map (fun q => (q, apisOfFun (cApi q)))) rest with ⟨r2, ev2⟩
      simp only [List.map_cons, comparePhase, hremb, hremc, hcc, hcp]
      have ihr := ih hnd2
      rw [hcp] at ihr
      simp only [] at ihr
      constructor
      · intro hall q hq c hc
        rcases List.mem_cons.mp hq with hqp | hqrest
        · subst hqp; exact hb c hc
        · exact ihr.mp hall q hqrest c hc
      · intro hall
        exact ihr.mpr (fun q hq c hc => hall q (List.mem_cons_of_mem p hq) c hc)

/-!  Helper lemmas about `check_apis`. -/

/-- The three file-write events of one package whose extraction yielded
the snapshots `g`. -/
def pkgWrites (p : String) (g : FeatureConfig → PublicApi) : List Event :=
  (apisOfFun g).map (fun q => Event.write p (apiPath p q.1) q.2)

theorem additiveCheck_of_fun (pkg : String) (g : FeatureConfig → PublicApi) :
    additiveCheck pkg (apisOfFun g) =
      (if isBreaking (diffApis (g FeatureConfig.none) (g FeatureConfig.all)) then
        (.error "Non-additive features detected",
         reportNonAdditive pkg (diffApis (g FeatureConfig.none) (g FeatureConfig.all)))
      else (.ok (), [])) := by
  simp [additiveCheck, apisOfFun, alistRemove, alistFind, alistErase]

theorem processPackage_ok (ex : FeatureConfig → Except String PublicApi)
    (g : FeatureConfig → PublicApi) (p : String) (h : ∀ c, ex c = .ok (g c)) :
    processPackage ex p =
      (if isBreaking (diffApis (g FeatureConfig.none) (g FeatureConfig.all)) then
        (.error "Non-additive features detected",
         pkgWrites p g ++ reportNonAdditive p (diffApis (g FeatureConfig.none) (g FeatureConfig.all)))
      else (.ok (), pkgWrites p g)) := by
  have hgo := getPA_ok_concrete ex g h
  rcases hb : isBreaking (diffApis (g FeatureConfig.none) (g FeatureConfig.all)) with _ | _
  · simp [processPackage, hgo, additiveCheck_of_fun, hb, pkgWrites]
  · simp [processPackage, hgo, additiveCheck_of_fun, hb, pkgWrites]

theorem checkApisGo_ok_prefix (ex : String → FeatureConfig → Except String PublicApi)
    (apiOf : String → FeatureConfig → PublicApi) :
    ∀ (pre rest : List String),
    (∀ q ∈ pre, ∀ c, ex q c = .ok (apiOf q c)) →
    (∀ q ∈ pre, isBreaking (diffApis (apiOf q FeatureConfig.none) (apiOf q FeatureConfig.all)) = false) →
    checkApisGo ex (pre ++ rest) =
      ((checkApisGo ex rest).1,
       (pre.map (fun q => pkgWrites q (apiOf q))).flatten ++ (checkApisGo ex rest).2) := by
  intro pre
  induction pre with
  | nil => intro rest _ _; simp
  | cons q pre2 ih =>
    intro rest hok hadd
    have hq : ∀ c, ex q c = .ok (apiOf q c) := hok q (List.mem_cons_self q pre2)
    have hqa : isBreaking (diffApis (apiOf q FeatureConfig.none) (apiOf q FeatureConfig.all)) = false :=
      hadd q (List.mem_cons_self q pre2)
    have hpp := processPackage_ok (ex q) (apiOf q) q hq
    rw [hqa] at hpp
    simp only [if_neg Bool.false_ne_true] at hpp
    have ihr := ih rest (fun r hr => hok r (List.mem_cons_of_mem q hr))
      (fun r hr => hadd r (List.mem_cons_of_mem q hr))
    rcases hrest : checkApisGo ex rest with ⟨r2, ev2⟩
    rw [hrest] at ihr
    simp only [List.cons_append, checkApisGo, hpp, ihr, hrest]
    simp only [List.append_eq]
    rw [ihr]
    simp

/-!  Membership lemmas for the non-additive report block. -/

theorem mem_report_of_removed (p : String) (d : ApiDiff) (it : Item)
    (h : it ∈ d.removed) :
    Event.errLine ("    - " ++ it.sig) ∈ reportNonAdditive p d := by
  have hne : d.removed.isEmpty = false := by
    cases hr : d.removed with
    | nil => rw [hr] at h; simp at h
    | cons a as => simp
  simp only [reportNonAdditive, hne, Bool.false_eq_true, if_false, List.mem_append,
             List.mem_cons, List.mem_map]
  exact Or.inl (Or.inr (Or.inr ⟨it, h, rfl⟩))

theorem mem_report_of_changed (p : String) (d : ApiDiff) (o n : Item)
    (h : (o, n) ∈ d.changed) :
    Event.errLine ("    - old: " ++ o.sig) ∈ reportNonAdditive p d ∧
    Event.errLine ("      new: " ++ n.sig) ∈ reportNonAdditive p d := by
  have hne : d.changed.isEmpty = false := by
    cases hr : d.changed with
    | nil => rw [hr] at h; simp at h
    | cons a as => simp
  have hmemflat : ∀ e ∈ [Event.errLine ("    - old: " ++ o.sig),
      Event.errLine ("      new: " ++ n.sig)],
      e ∈ (d.changed.map (fun q =>
        [Event.errLine ("    - old: " ++ q.1.sig),
         Event.errLine ("      new: " ++ q.2.sig)])).flatten := by
    intro e he
    exact List.mem_flatten.mpr ⟨_, List.mem_map.mpr ⟨(o, n), h, rfl⟩, he⟩
  have hgen : ∀ e ∈ [Event.errLine ("    - old: " ++ o.sig),
      Event.errLine ("      new: " ++ n.sig)], e ∈ reportNonAdditive p d := by
    intro e he
    simp only [reportNonAdditive]
    apply List.mem_append.mpr
    refine Or.inr ?_
    simp only [hne, Bool.false_eq_true, if_false]
    exact List.mem_cons.mpr (Or.inr (hmemflat e he))
  exact ⟨hgen _ (by simp), hgen _ (by simp)⟩

/-!  Event-kind lemmas for the comparison phase. -/

theorem compareConfigs_events (pkg : String) :
    ∀ (cs : List FeatureConfig) (bm cm : PackageApis),
    ∀ e ∈ (compareConfigs pkg cs bm cm).2, ∃ s, e = Event.errLine s := by
  intro cs
  induction cs with
  | nil => intro bm cm e he; simp [compareConfigs] at he
  | cons c cs2 ih =>
    intro bm cm e he
    rcases hb : alistRemove bm c with ⟨ob, bm1⟩
    cases ob with
    | none => simp [compareConfigs, hb] at he
    | some bApi =>
      rcases hc : alistRemove cm c with ⟨oc, cm1⟩
      cases oc with
      | none => simp [compareConfigs, hb, hc] at he
      | some cApi =>
        rcases hbr : isBreaking (diffApis bApi cApi) with _ | _
        · simp only [compareConfigs, hb, hc, hbr, Bool.false_eq_true, if_false] at he
          exact ih bm1 cm1 e he
        · simp only [compareConfigs, hb, hc, hbr, if_true] at he
          rcases List.mem_singleton.mp he with rfl
          exact ⟨_, rfl⟩

theorem comparePhase_events :
    ∀ (pkgs : List String) (bm cm : List (String × PackageApis)),
    ∀ e ∈ (comparePhase bm cm pkgs).2,
      (∃ s, e = Event.info s) ∨ (∃ s, e = Event.errLine s) := by
  intro pkgs
  induction pkgs with
  | nil => intro bm cm e he; simp [comparePhase] at he
  | cons p rest ih =>
    intro bm cm e he
    rcases hb : alistRemove bm p with ⟨ob, bm1⟩
    cases ob with
    | none =>
      rcases hcp : comparePhase bm cm rest with ⟨r2, ev2⟩
      simp only [comparePhase, hb, hcp, List.mem_cons] at he
      rcases he with rfl | he2
      · exact Or.inl ⟨_, rfl⟩
      · have := ih bm cm e
        rw [hcp] at this
        exact this he2
    | some bApis =>
      rcases hc : alistRemove cm p with ⟨oc, cm1⟩
      cases oc with
      | none =>
        rcases hcp : comparePhase bm1 cm rest with ⟨r2, ev2⟩
        simp only [comparePhase, hb, hc, hcp, List.mem_cons] at he
        rcases he with rfl | he2
        · exact Or.inl ⟨_, rfl⟩
        · have := ih bm1 cm e
          rw [hcp] at this
          exact this he2
      | some cApis =>
        rcases hcc : compareConfigs p catalog bApis cApis with ⟨rc, evc⟩
        cases rc with
        | error err =>
          simp only [comparePhase, hb, hc, hcc] at he
          have := compareConfigs_events p catalog bApis cApis e
          rw [hcc] at this
          exact Or.inr (this he)
        | ok u =>
          rcases hcp : comparePhase bm1 cm1 rest with ⟨r2, ev2⟩
          simp only [comparePhase, hb, hc, hcc, hcp, List.mem_append] at he
          rcases he with he1 | he2
          · have := compareConfigs_events p catalog bApis cApis e
            rw [hcc] at this
            exact Or.inr (this he1)
          · have := ih bm1 cm1 e
            rw [hcp] at this
            exact this he2

/-!  Count and classification corollaries used for the switch-count claims. -/

theorem extractAllGo_countP_zero (ex : String → FeatureConfig → Except String PublicApi)
    (rev : String) (pkgs : List String) (acc : List (String × PackageApis))
    (pred : Event → Bool)
    (hpred : ∀ p c r, pred (Event.extract p c r) = false) :
    (extractAllGo ex rev pkgs acc).2.countP pred = 0 := by
  apply List.countP_eq_zero.mpr
  intro e he
  rcases extractAllGo_events ex rev pkgs acc e he with ⟨p, c, rfl⟩
  simp [hpred]

theorem comparePhase_countP_zero (pkgs : List String)
    (bm cm : List (String × PackageApis)) (pred : Event → Bool)
    (hinfo : ∀ s, pred (Event.info s) = false)
    (herr : ∀ s, pred (Event.errLine s) = false) :
    (comparePhase bm cm pkgs).2.countP pred = 0 := by
  apply List.countP_eq_zero.mpr
  intro e he
  rcases comparePhase_events pkgs bm cm e he with ⟨s, rfl⟩ | ⟨s, rfl⟩
  · simp [hinfo]
  · simp [herr]

/-- Every event of the semver flow is an extraction, a switch, a warning
or a diagnostic line: the flow writes no file and queries no status. -/
theorem check_semver_events (ex : String → String → FeatureConfig → Except String PublicApi)
    (pkgs : List String) (origRef baselineRef : String) :
    ∀ e ∈ (check_semver ex pkgs origRef baselineRef).trace,
      (∀ p f a, e ≠ Event.write p f a) ∧ e ≠ Event.gitStatus := by
  intro e he
  have hclass : (∃ p c r, e = Event.extract p c r) ∨ (∃ r, e = Event.gitSwitchDetach r) ∨
      (∃ r, e = Event.gitSwitch r) ∨ (∃ s, e = Event.info s) ∨ (∃ s, e = Event.errLine s) := by
    rcases hcur : extractAllGo (ex origRef) origRef pkgs [] with ⟨rc, evc⟩
    cases rc with
    | error err =>
      simp only [check_semver, hcur] at he
      have := extractAllGo_events (ex origRef) origRef pkgs [] e
      rw [hcur] at this
      rcases this he with ⟨p, c, rfl⟩
      exact Or.inl ⟨p, c, origRef, rfl⟩
    | ok curApis =>
      rcases hbase : extractAllGo (ex baselineRef) baselineRef pkgs [] with ⟨rb, evb⟩
      have hcurev := extractAllGo_events (ex origRef) origRef pkgs [] e
      rw [hcur] at hcurev
      have hbasev := extractAllGo_events (ex baselineRef) baselineRef pkgs [] e
      rw [hbase] at hbasev
      cases rb with
      | error err =>
        simp only [check_semver, hcur, hbase, List.mem_append, List.mem_cons] at he
        rcases he with (h1 | h2) | h3
        · rcases hcurev h1 with ⟨p, c, rfl⟩
          exact Or.inl ⟨p, c, origRef, rfl⟩
        · rcases h2 with rfl | h2b
          · exact Or.inr (Or.inl ⟨_, rfl⟩)
          · simp at h2b
        · rcases hbasev h3 with ⟨p, c, rfl⟩
          exact Or.inl ⟨p, c, baselineRef, rfl⟩
      | ok baseApis =>
        rcases hcp : comparePhase baseApis curApis pkgs with ⟨rp, evp⟩
        have hcpev := comparePhase_events pkgs baseApis curApis e
        rw [hcp] at hcpev
        simp only [check_semver, hcur, hbase, hcp, List.mem_append, List.mem_cons] at he
        rcases he with (((h1 | h2) | h3) | h4) | h5
        · rcases hcurev h1 with ⟨p, c, rfl⟩
          exact Or.inl ⟨p, c, origRef, rfl⟩
        · rcases h2 with rfl | h2b
          · exact Or.inr (Or.inl ⟨_, rfl⟩)
          · simp at h2b
        · rcases hbasev h3 with ⟨p, c, rfl⟩
          exact Or.inl ⟨p, c, baselineRef, rfl⟩
        · rcases h4 with rfl | h4b
          · exact Or.inr (Or.inr (Or.inl ⟨_, rfl⟩))
          · simp at h4b
        · rcases hcpev h5 with ⟨s, rfl⟩ | ⟨s, rfl⟩
          · exact Or.inr (Or.inr (Or.inr (Or.inl ⟨s, rfl⟩)))
          · exact Or.inr (Or.inr (Or.inr (Or.inr ⟨s, rfl⟩)))
  rcases hclass with ⟨p, c, r, rfl⟩ | ⟨r, rfl⟩ | ⟨r, rfl⟩ | ⟨s, rfl⟩ | ⟨s, rfl⟩ <;>
    exact ⟨fun _ _ _ h => Event.noConfusion h, fun h => Event.noConfusion h⟩

/-!  A computable substring test, used to state that a diagnostic line does
not mention a signature. -/

/-- Is the first character list a prefix of the second? -/
def charsLead : List Char → List Char → Bool
  | [], _ => true
  | _ :: _, [] => false
  | a :: as, b :: bs => a = b && charsLead as bs

/-- Does the first character list occur as a contiguous run of the second? -/
def charsOccur (needle : List Char) : List Char → Bool
  | [] => charsLead needle []
  | b :: bs => charsLead needle (b :: bs) || charsOccur needle bs

/-- Does `needle` occur as a substring of `hay`? -/
def occursIn (needle hay : String) : Bool :=
  charsOccur needle.data hay.data

/-- The text of a diagnostic (`eprintln`) event, empty for other events. -/
def errText : Event → String
  | .errLine s => s
  | _ => ""

/-- Is the event an `eprintln` diagnostic line? -/
def isErrLine : Event → Bool
  | .errLine _ => true
  | _ => false

/-!  Claim theorems. -/

/-- Extraction environment that succeeds at the original revision and
fails once the baseline revision is checked out. -/
def exC1 : String → String → FeatureConfig → Except String PublicApi :=
  fun rev _pkg _cfg => if rev = "v1.0" then .error "rustdoc failed" else .ok []

/-- Claim C1, demonstrating the defect: when baseline extraction fails
after the switch to the baseline, `check_semver` returns the error
without attempting the restoration switch, so the working tree is left
checked out at the baseline revision, not the one captured before the
switch.  Concretely, with one package, original ref `master` and baseline
`v1.0` whose extraction fails, the flow errors, the final revision is
`v1.0`, the trace records the detaching switch but zero restoration
switches. -/
theorem c1_restore_skipped_on_baseline_extraction_failure :
    exceptOk (check_semver exC1 ["a"] "master" "v1.0").result = false
  ∧ (check_semver exC1 ["a"] "master" "v1.0").finalRev = "v1.0"
  ∧ "v1.0" ≠ "master"
  ∧ Event.gitSwitchDetach "v1.0" ∈ (check_semver exC1 ["a"] "master" "v1.0").trace
  ∧ (check_semver exC1 ["a"] "master" "v1.0").trace.countP isRestore = 0 := by
  refine ⟨rfl, rfl, by decide, by decide, rfl⟩

/-- Claim C2: with distinct package names and extraction succeeding for
every package and configuration at both revisions (yielding snapshots
`cApi` at the current revision and `bApi` at the baseline), the semver
run fails exactly when some configuration of some package has a diff of
baseline against current with non-empty `removed` or `changed`; and a
diff whose `removed` and `changed` are both empty (an added-only diff) is
never classified breaking. -/
theorem c2_breaking_classification
    (ex : String → String → FeatureConfig → Except String PublicApi)
    (pkgs : List String) (origRef baselineRef : String)
    (bApi cApi : String → FeatureConfig → PublicApi)
    (hnd : pkgs.Nodup)
    (hc : ∀ p ∈ pkgs, ∀ c, ex origRef p c = .ok (cApi p c))
    (hb : ∀ p ∈ pkgs, ∀ c, ex baselineRef p c = .ok (bApi p c)) :
    (exceptOk (check_semver ex pkgs origRef baselineRef).result = false ↔
      ∃ p ∈ pkgs, ∃ c ∈ catalog, isBreaking (diffApis (bApi p c) (cApi p c)) = true)
  ∧ (∀ d : ApiDiff, d.removed = [] → d.changed = [] → isBreaking d = false) := by
  have hcur := extractAllGo_ok_shape (ex origRef) origRef cApi pkgs []
    hnd (fun p _ => rfl) hc
  have hbase := extractAllGo_ok_shape (ex baselineRef) baselineRef bApi pkgs []
    hnd (fun p _ => rfl) hb
  have halign := comparePhase_aligned bApi cApi pkgs hnd
  constructor
  · rcases hres : comparePhase (pkgs.map (fun p => (p, apisOfFun (bApi p))))
        (pkgs.map (fun p => (p, apisOfFun (cApi p)))) pkgs with ⟨r, ev⟩
    rw [hres] at halign
    have hsem : (check_semver ex pkgs origRef baselineRef).result = r := by
      simp only [check_semver, hcur, hbase, List.nil_append, hres]
    rw [hsem]
    have hfalse : (exceptOk r = false) ↔ ¬(exceptOk r = true) := by
      cases exceptOk r <;> simp
    rw [hfalse, halign]
    constructor
    · intro hno
      push_neg at hno
      obtain ⟨p, hp, c, hc2, hbb⟩ := hno
      refine ⟨p, hp, c, hc2, ?_⟩
      revert hbb
      cases isBreaking (diffApis (bApi p c) (cApi p c)) <;> simp
    · rintro ⟨p, hp, c, hc2, hbb⟩ hall
      have hz := hall p hp c hc2
      rw [hbb] at hz
      simp at hz
  · intro d h1 h2
    rw [isBreaking_false_iff]
    exact ⟨h1, h2⟩

/-- Extraction environment for the C2 witness: the baseline revision
`base2` exposes one item that the current revision `cur2` no longer has. -/
def exW2 : String → String → FeatureConfig → Except String PublicApi :=
  fun rev _pkg _cfg =>
    if rev = "base2" then .ok [⟨"m::f", "pub fn f()"⟩] else .ok []

def bApiW2 : String → FeatureConfig → PublicApi := fun _ _ => [⟨"m::f", "pub fn f()"⟩]

def cApiW2 : String → FeatureConfig → PublicApi := fun _ _ => []

theorem c2_breaking_classification_witness :
    exceptOk (check_semver exW2 ["pkg"] "cur2" "base2").result = false ↔
      ∃ p ∈ ["pkg"], ∃ c ∈ catalog, isBreaking (diffApis (bApiW2 p c) (cApiW2 p c)) = true :=
  (c2_breaking_classification exW2 ["pkg"] "cur2" "base2" bApiW2 cApiW2
    (by simp) (fun p _ c => rfl) (fun p _ c => rfl)).1

theorem isBreaking_of_removed_ne (d : ApiDiff) (h : d.removed ≠ []) : isBreaking d = true := by
  cases hr : d.removed with
  | nil => exact absurd hr h
  | cons a as => simp [isBreaking, hr]

theorem isBreaking_of_changed_ne (d : ApiDiff) (h : d.changed ≠ []) : isBreaking d = true := by
  cases hr : d.changed with
  | nil => exact absurd hr h
  | cons a as => simp [isBreaking, hr]

/-- Claim C3: for a package map holding a no-features snapshot `nf` and an
all-features snapshot `af`, the additive-features check succeeds exactly
when `diffApis nf af` has empty `removed` and empty `changed`; any item
of `nf` whose name is absent from `af` makes the check fail and puts that
item's signature in the diagnostic output; any item of `nf` matched in
`af` under the same name with a different signature makes the check fail
and puts both the old and the new signature in the output. -/
theorem c3_additive_check (pkg : String) (apis : PackageApis) (nf af : PublicApi)
    (hn : alistFind apis FeatureConfig.none = some nf)
    (ha : alistFind apis FeatureConfig.all = some af) :
    (exceptOk (additiveCheck pkg apis).1 = true ↔
      ((diffApis nf af).removed = [] ∧ (diffApis nf af).changed = []))
  ∧ (∀ it ∈ nf, hasName af it.name = false →
      exceptOk (additiveCheck pkg apis).1 = false ∧
      Event.errLine ("    - " ++ it.sig) ∈ (additiveCheck pkg apis).2)
  ∧ (∀ it ∈ nf, ∀ n2, lookupName af it.name = some n2 → it.sig ≠ n2.sig →
      exceptOk (additiveCheck pkg apis).1 = false ∧
      Event.errLine ("    - old: " ++ it.sig) ∈ (additiveCheck pkg apis).2 ∧
      Event.errLine ("      new: " ++ n2.sig) ∈ (additiveCheck pkg apis).2) := by
  have hfind2 : alistFind (alistErase apis FeatureConfig.none) FeatureConfig.all = some af := by
    rw [alistFind_erase_ne apis FeatureConfig.none FeatureConfig.all (by decide)]
    exact ha
  have hac : additiveCheck pkg apis =
      (if isBreaking (diffApis nf af) then
        (.error "Non-additive features detected", reportNonAdditive pkg (diffApis nf af))
      else (.ok (), [])) := by
    simp only [additiveCheck, alistRemove_of_find_some hn, alistRemove_of_find_some hfind2]
  refine ⟨?_, ?_, ?_⟩
  · rcases hbb : isBreaking (diffApis nf af) with _ | _
    · rw [hac, hbb]
      simp only [Bool.false_eq_true, if_false, exceptOk]
      exact iff_of_true trivial ((isBreaking_false_iff _).mp hbb)
    · rw [hac, hbb]
      simp only [if_true, exceptOk]
      refine iff_of_false (by simp) ?_
      intro hboth
      rw [(isBreaking_false_iff _).mpr hboth] at hbb
      exact Bool.noConfusion hbb
  · intro it hit hname
    have hrem : it ∈ (diffApis nf af).removed := by
      apply List.mem_filter.mpr
      exact ⟨hit, by rw [hname]; rfl⟩
    have hbb : isBreaking (diffApis nf af) = true :=
      isBreaking_of_removed_ne _ (List.ne_nil_of_mem hrem)
    rw [hac, hbb]
    simp only [if_true, exceptOk]
    exact ⟨trivial, mem_report_of_removed pkg _ it hrem⟩
  · intro it hit n2 hlook hsig
    have hchg : (it, n2) ∈ (diffApis nf af).changed := by
      apply List.mem_filterMap.mpr
      refine ⟨it, hit, ?_⟩
      rw [hlook]
      simp [hsig]
    have hbb : isBreaking (diffApis nf af) = true :=
      isBreaking_of_changed_ne _ (List.ne_nil_of_mem hchg)
    have hr := mem_report_of_changed pkg _ it n2 hchg
    rw [hac, hbb]
    simp only [if_true, exceptOk]
    exact ⟨trivial, hr.1, hr.2⟩

theorem c3_additive_check_witness :
    (exceptOk (additiveCheck "bitcoin"
        [(FeatureConfig.none, [⟨"m::foo", "pub fn foo()"⟩, ⟨"m::Baz", "pub struct Baz"⟩]),
         (FeatureConfig.alloc, [⟨"m::foo", "pub fn foo()"⟩]),
         (FeatureConfig.all, [⟨"m::foo", "pub fn foo()"⟩])]).1 = true ↔
      ((diffApis [⟨"m::foo", "pub fn foo()"⟩, ⟨"m::Baz", "pub struct Baz"⟩]
          [⟨"m::foo", "pub fn foo()"⟩]).removed = [] ∧
       (diffApis [⟨"m::foo", "pub fn foo()"⟩, ⟨"m::Baz", "pub struct Baz"⟩]
          [⟨"m::foo", "pub fn foo()"⟩]).changed = []))
  ∧ Event.errLine "    - pub struct Baz" ∈ (additiveCheck "bitcoin"
        [(FeatureConfig.none, [⟨"m::foo", "pub fn foo()"⟩, ⟨"m::Baz", "pub struct Baz"⟩]),
         (FeatureConfig.alloc, [⟨"m::foo", "pub fn foo()"⟩]),
         (FeatureConfig.all, [⟨"m::foo", "pub fn foo()"⟩])]).2 := by
  have h := c3_additive_check "bitcoin"
    [(FeatureConfig.none, [⟨"m::foo", "pub fn foo()"⟩, ⟨"m::Baz", "pub struct Baz"⟩]),
     (FeatureConfig.alloc, [⟨"m::foo", "pub fn foo()"⟩]),
     (FeatureConfig.all, [⟨"m::foo", "pub fn foo()"⟩])]
    [⟨"m::foo", "pub fn foo()"⟩, ⟨"m::Baz", "pub struct Baz"⟩]
    [⟨"m::foo", "pub fn foo()"⟩] (by rfl) (by rfl)
  exact ⟨h.1, (h.2.1 ⟨"m::Baz", "pub struct Baz"⟩ (by simp) (by rfl)).2⟩

/-- Claim C7: a package requested in the semver comparison that is absent
from the baseline snapshot map is skipped with a warning and the
remaining packages are processed with unchanged maps, the overall result
being that of the remaining packages alone; a package present in the
baseline map but absent from the current map is likewise skipped with a
warning (its baseline entry consumed), the result again being that of the
remaining packages.  In particular a missing package alone never fails
the run. -/
theorem c7_missing_package_skipped (bMap cMap : List (String × PackageApis))
    (p : String) (rest : List String) :
    (alistFind bMap p = Option.none →
      comparePhase bMap cMap (p :: rest) =
        ((comparePhase bMap cMap rest).1,
         Event.info ("Warning: Package '" ++ p ++ "' not found in baseline - skipping comparison")
           :: (comparePhase bMap cMap rest).2))
  ∧ (∀ bApis, alistFind bMap p = some bApis → alistFind cMap p = Option.none →
      comparePhase bMap cMap (p :: rest) =
        ((comparePhase (alistErase bMap p) cMap rest).1,
         Event.info ("Warning: Package '" ++ p ++ "' exists in baseline but not in current - possible removal")
           :: (comparePhase (alistErase bMap p) cMap rest).2)) := by
  constructor
  · intro h
    rcases hcp : comparePhase bMap cMap rest with ⟨r, ev⟩
    simp only [comparePhase, alistRemove_of_find_none h, hcp]
  · intro bApis hb hc
    rcases hcp : comparePhase (alistErase bMap p) cMap rest with ⟨r, ev⟩
    simp only [comparePhase, alistRemove_of_find_some hb, alistRemove_of_find_none hc, hcp]

theorem c7_missing_package_skipped_witness :
    comparePhase [] [] ["a"] =
      (.ok (), [Event.info "Warning: Package 'a' not found in baseline - skipping comparison"]) := by
  have h := (c7_missing_package_skipped [] [] "a" []).1 rfl
  rw [h]
  rfl

/-- Claim C8: `get_package_apis` attempts one extraction per catalog entry
in the order None, Alloc, All; on success it returns a map binding every
configuration to its snapshot (and nothing else); if the extraction for
some configuration fails, the error is returned at once, the trace shows
that no later catalog entry was attempted, and no partial map is
returned. -/
theorem c8_get_package_apis (ex : FeatureConfig → Except String PublicApi) :
    (∀ g : FeatureConfig → PublicApi, (∀ c, ex c = .ok (g c)) →
      get_package_apis ex = (.ok (apisOfFun g), catalog) ∧
      ∀ c, alistFind (apisOfFun g) c = some (g c))
  ∧ (∀ e, ex FeatureConfig.none = .error e →
      get_package_apis ex = (.error e, [FeatureConfig.none]))
  ∧ (∀ a e, ex FeatureConfig.none = .ok a → ex FeatureConfig.alloc = .error e →
      get_package_apis ex = (.error e, [FeatureConfig.none, FeatureConfig.alloc]))
  ∧ (∀ a b e, ex FeatureConfig.none = .ok a → ex FeatureConfig.alloc = .ok b →
      ex FeatureConfig.all = .error e →
      get_package_apis ex = (.error e, catalog)) := by
  refine ⟨?_, ?_, ?_, ?_⟩
  · intro g h
    refine ⟨by rw [get_package_apis, getPA_ok_concrete ex g h], ?_⟩
    intro c
    cases c <;> rfl
  · intro e h
    simp [get_package_apis, getPackageApisGo, catalog, h]
  · intro a e h1 h2
    simp [get_package_apis, getPackageApisGo, catalog, h1, h2, alistInsert, alistErase]
  · intro a b e h1 h2 h3
    simp [get_package_apis, getPackageApisGo, catalog, h1, h2, h3, alistInsert, alistErase]

def exW8a : FeatureConfig → Except String PublicApi := fun _ => .ok []

def exW8b : FeatureConfig → Except String PublicApi := fun c =>
  match c with
  | .none => .ok []
  | .alloc => .error "rustdoc exited with an error"
  | .all => .ok []

theorem c8_get_package_apis_witness :
    get_package_apis exW8a = (.ok (apisOfFun (fun _ => [])), catalog)
  ∧ get_package_apis exW8b =
      (.error "rustdoc exited with an error", [FeatureConfig.none, FeatureConfig.alloc]) :=
  ⟨((c8_get_package_apis exW8a).1 (fun _ => []) (fun _ => rfl)).1,
   (c8_get_package_apis exW8b).2.2.1 [] "rustdoc exited with an error" rfl rfl⟩

/-!  The shape of a `check_apis` run that hits its first non-additive
package after a prefix of clean packages. -/

theorem checkApis_fail_at (ex : String → FeatureConfig → Except String PublicApi)
    (apiOf : String → FeatureConfig → PublicApi)
    (pre : List String) (p : String) (post : List String) (st : String)
    (hok : ∀ q ∈ pre ++ [p], ∀ c, ex q c = .ok (apiOf q c))
    (hpre : ∀ q ∈ pre,
      isBreaking (diffApis (apiOf q FeatureConfig.none) (apiOf q FeatureConfig.all)) = false)
    (hp : isBreaking (diffApis (apiOf p FeatureConfig.none) (apiOf p FeatureConfig.all)) = true) :
    check_apis ex (pre ++ p :: post) st =
      (.error "Non-additive features detected",
       (pre.map (fun q => pkgWrites q (apiOf q))).flatten ++
         (pkgWrites p (apiOf p) ++
          reportNonAdditive p (diffApis (apiOf p FeatureConfig.none) (apiOf p FeatureConfig.all)))) := by
  have hokpre : ∀ q ∈ pre, ∀ c, ex q c = .ok (apiOf q c) :=
    fun q hq => hok q (List.mem_append.mpr (Or.inl hq))
  have hokp : ∀ c, ex p c = .ok (apiOf p c) :=
    hok p (List.mem_append.mpr (Or.inr (by simp)))
  have hpp := processPackage_ok (ex p) (apiOf p) p hokp
  rw [hp, if_pos rfl] at hpp
  have hgop : checkApisGo ex (p :: post) =
      (.error "Non-additive features detected",
       pkgWrites p (apiOf p) ++
         reportNonAdditive p (diffApis (apiOf p FeatureConfig.none) (apiOf p FeatureConfig.all))) := by
    simp only [checkApisGo, hpp]
  have hgo := checkApisGo_ok_prefix ex apiOf pre (p :: post) hokpre hpre
  rw [hgop] at hgo
  simp only [check_apis, hgo]

/-- Membership of the three snapshot writes of one package. -/
theorem mem_pkgWrites (p : String) (g : FeatureConfig → PublicApi) :
    ∀ c ∈ catalog, Event.write p (apiPath p c) (g c) ∈ pkgWrites p g := by
  intro c _
  cases c <;> simp [pkgWrites, apisOfFun]

/-- Extraction outcomes making every package non-additive: the
no-features snapshot has an item `m::Baz` missing from all-features. -/
def exC4 : String → FeatureConfig → Except String PublicApi := fun _pkg cfg =>
  match cfg with
  | .none => .ok [⟨"m::foo", "pub fn foo()"⟩, ⟨"m::Baz", "pub struct Baz"⟩]
  | .alloc => .ok [⟨"m::foo", "pub fn foo()"⟩]
  | .all => .ok [⟨"m::foo", "pub fn foo()"⟩]

/-- Does the event write a file of the given package? -/
def writesPkg (p : String) : Event → Bool
  | .write q _ _ => q = p
  | _ => false

/-- Claim C4 counterexample: in a run with two packages that both violate
the additive-features policy, the run fails after reporting only the
first package's violation: package `b` is breaking too, yet no diagnostic
line for `b` and no file write for `b` appears in the trace. -/
theorem c4_counterexample_first_package_only :
    isBreaking (diffApis [⟨"m::foo", "pub fn foo()"⟩, ⟨"m::Baz", "pub struct Baz"⟩]
      [⟨"m::foo", "pub fn foo()"⟩]) = true
  ∧ exceptOk (check_apis exC4 ["a", "b"] "").1 = false
  ∧ Event.errLine "Non-additive features detected in a:" ∈ (check_apis exC4 ["a", "b"] "").2
  ∧ Event.errLine "Non-additive features detected in b:" ∉ (check_apis exC4 ["a", "b"] "").2
  ∧ (check_apis exC4 ["a", "b"] "").2.countP (writesPkg "b") = 0 := by
  refine ⟨rfl, rfl, by decide, by decide, rfl⟩

/-- Claim C4 (amended): the run reports every offending item of the first
package that violates the additive policy and fails immediately; given a
prefix `pre` of clean packages and a first violating package `p`, the
whole trace consists of the prefix writes, `p`'s writes and `p`'s full
violation report, with no event for any later package. -/
theorem c4_amended_stops_at_first_violator
    (ex : String → FeatureConfig → Except String PublicApi)
    (apiOf : String → FeatureConfig → PublicApi)
    (pre : List String) (p : String) (post : List String) (st : String)
    (hok : ∀ q ∈ pre ++ [p], ∀ c, ex q c = .ok (apiOf q c))
    (hpre : ∀ q ∈ pre,
      isBreaking (diffApis (apiOf q FeatureConfig.none) (apiOf q FeatureConfig.all)) = false)
    (hp : isBreaking (diffApis (apiOf p FeatureConfig.none) (apiOf p FeatureConfig.all)) = true) :
    check_apis ex (pre ++ p :: post) st =
      (.error "Non-additive features detected",
       (pre.map (fun q => pkgWrites q (apiOf q))).flatten ++
         (pkgWrites p (apiOf p) ++
          reportNonAdditive p (diffApis (apiOf p FeatureConfig.none) (apiOf p FeatureConfig.all)))) :=
  checkApis_fail_at ex apiOf pre p post st hok hpre hp

def apiOfW4 : String → FeatureConfig → PublicApi := fun _pkg cfg =>
  match cfg with
  | .none => [⟨"m::foo", "pub fn foo()"⟩, ⟨"m::Baz", "pub struct Baz"⟩]
  | .alloc => [⟨"m::foo", "pub fn foo()"⟩]
  | .all => [⟨"m::foo", "pub fn foo()"⟩]

theorem c4_amended_stops_at_first_violator_witness :
    check_apis exC4 ["a", "b"] "" =
      (.error "Non-additive features detected",
       pkgWrites "a" (apiOfW4 "a") ++
         reportNonAdditive "a"
           (diffApis (apiOfW4 "a" FeatureConfig.none) (apiOfW4 "a" FeatureConfig.all))) := by
  have h := c4_amended_stops_at_first_violator exC4 apiOfW4 [] "a" ["b"] ""
    (by intro q hq c; cases c <;> rfl) (by intro q hq; cases hq) (by rfl)
  simpa using h

/-- Claim C10: in the no-baseline flow, the three per-configuration
snapshot files of a package are written before its additive check runs;
hence in a run that fails with the non-additive error at package `p`
(after a clean prefix), every one of `p`'s three files — including the
offending configurations — appears in the trace, inside the part of the
trace that precedes the violation report. -/
theorem c10_writes_precede_additive_failure
    (ex : String → FeatureConfig → Except String PublicApi)
    (apiOf : String → FeatureConfig → PublicApi)
    (pre : List String) (p : String) (post : List String) (st : String)
    (hok : ∀ q ∈ pre ++ [p], ∀ c, ex q c = .ok (apiOf q c))
    (hpre : ∀ q ∈ pre,
      isBreaking (diffApis (apiOf q FeatureConfig.none) (apiOf q FeatureConfig.all)) = false)
    (hp : isBreaking (diffApis (apiOf p FeatureConfig.none) (apiOf p FeatureConfig.all)) = true) :
    exceptOk (check_apis ex (pre ++ p :: post) st).1 = false
  ∧ (∀ c ∈ catalog,
      Event.write p (apiPath p c) (apiOf p c) ∈ (check_apis ex (pre ++ p :: post) st).2)
  ∧ ∃ preEv,
      (check_apis ex (pre ++ p :: post) st).2 =
        preEv ++ reportNonAdditive p (diffApis (apiOf p FeatureConfig.none) (apiOf p FeatureConfig.all))
      ∧ ∀ c ∈ catalog, Event.write p (apiPath p c) (apiOf p c) ∈ preEv := by
  have h := checkApis_fail_at ex apiOf pre p post st hok hpre hp
  rw [h]
  refine ⟨rfl, ?_, ?_⟩
  · intro c hc
    apply List.mem_append.mpr
    exact Or.inr (List.mem_append.mpr (Or.inl (mem_pkgWrites p (apiOf p) c hc)))
  · refine ⟨(pre.map (fun q => pkgWrites q (apiOf q))).flatten ++ pkgWrites p (apiOf p), ?_, ?_⟩
    · simp [List.append_assoc]
    · intro c hc
      exact List.mem_append.mpr (Or.inr (mem_pkgWrites p (apiOf p) c hc))

def exW10 : String → FeatureConfig → Except String PublicApi := fun _pkg cfg =>
  match cfg with
  | .none => .ok [⟨"m::only_nf", "pub fn only_nf()"⟩]
  | .alloc => .ok []
  | .all => .ok []

def apiOfW10 : String → FeatureConfig → PublicApi := fun _pkg cfg =>
  match cfg with
  | .none => [⟨"m::only_nf", "pub fn only_nf()"⟩]
  | .alloc => []
  | .all => []

theorem c10_writes_precede_additive_failure_witness :
    exceptOk (check_apis exW10 ["x"] "").1 = false
  ∧ (∀ c ∈ catalog,
      Event.write "x" (apiPath "x" c) (apiOfW10 "x" c) ∈ (check_apis exW10 ["x"] "").2) := by
  have h := c10_writes_precede_additive_failure exW10 apiOfW10 [] "x" [] ""
    (by intro q hq c; cases c <;> rfl) (by intro q hq; cases hq) (by rfl)
  exact ⟨h.1, h.2.1⟩

/-- Extraction environment for the C5 counterexample: one item changes
signature between the baseline revision `base5` and the current one. -/
def exC5 : String → String → FeatureConfig → Except String PublicApi :=
  fun rev _pkg _cfg =>
    if rev = "base5" then .ok [⟨"m::foo", "pub fn foo() -> i32"⟩]
    else .ok [⟨"m::foo", "pub fn foo() -> u32"⟩]

/-- Claim C5 counterexample: the semver check fails on a breaking
configuration whose diff contains one changed item, yet the diagnostic
output consists of a single line naming only the package and the
configuration label; neither the old nor the new signature occurs in any
diagnostic line, so the offending items are not enumerated. -/
theorem c5_counterexample_signatures_not_printed :
    exceptOk (check_semver exC5 ["a"] "main5" "base5").result = false
  ∧ (diffApis [⟨"m::foo", "pub fn foo() -> i32"⟩] [⟨"m::foo", "pub fn foo() -> u32"⟩]).changed =
      [(⟨"m::foo", "pub fn foo() -> i32"⟩, ⟨"m::foo", "pub fn foo() -> u32"⟩)]
  ∧ (check_semver exC5 ["a"] "main5" "base5").trace.filter isErrLine =
      [Event.errLine "API changes detected in a (no-features)"]
  ∧ (∀ e ∈ (check_semver exC5 ["a"] "main5" "base5").trace,
      occursIn "pub fn foo() -> i32" (errText e) = false ∧
      occursIn "pub fn foo() -> u32" (errText e) = false) := by
  refine ⟨rfl, rfl, rfl, by decide⟩

/-- Claim C5 (amended): when the semver comparison of a package (over a
complete configuration map) fails, its diagnostic output is exactly one
line naming the package and the display label of the first breaking
configuration; the offending items and their signatures are not printed.
Otherwise no diagnostic line is printed at all. -/
theorem c5_amended_single_line_diagnostic (pkg : String)
    (g h : FeatureConfig → PublicApi) :
    (compareConfigs pkg catalog (apisOfFun g) (apisOfFun h)).2 = []
  ∨ ∃ c ∈ catalog, isBreaking (diffApis (g c) (h c)) = true
      ∧ (compareConfigs pkg catalog (apisOfFun g) (apisOfFun h)).1 =
          .error "Semver compatibility check failed: breaking changes detected"
      ∧ (compareConfigs pkg catalog (apisOfFun g) (apisOfFun h)).2 =
          [Event.errLine ("API changes detected in " ++ pkg ++ " (" ++ c.display_name ++ ")")] := by
  rcases hb1 : isBreaking (diffApis (g FeatureConfig.none) (h FeatureConfig.none)) with _ | _
  · rcases hb2 : isBreaking (diffApis (g FeatureConfig.alloc) (h FeatureConfig.alloc)) with _ | _
    · rcases hb3 : isBreaking (diffApis (g FeatureConfig.all) (h FeatureConfig.all)) with _ | _
      · refine Or.inl ?_
        simp [compareConfigs, catalog, apisOfFun, alistRemove, alistFind, alistErase,
              hb1, hb2, hb3]
      · refine Or.inr ⟨FeatureConfig.all, by simp [catalog], hb3, ?_, ?_⟩ <;>
          simp [compareConfigs, catalog, apisOfFun, alistRemove, alistFind, alistErase,
                hb1, hb2, hb3]
    · refine Or.inr ⟨FeatureConfig.alloc, by simp [catalog], hb2, ?_, ?_⟩ <;>
        simp [compareConfigs, catalog, apisOfFun, alistRemove, alistFind, alistErase,
              hb1, hb2]
  · refine Or.inr ⟨FeatureConfig.none, by simp [catalog], hb1, ?_, ?_⟩ <;>
      simp [compareConfigs, catalog, apisOfFun, alistRemove, alistFind, alistErase, hb1]

/-- Extraction environment that always fails, for the C6 counterexample. -/
def exC6 : String → String → FeatureConfig → Except String PublicApi :=
  fun _rev _pkg _cfg => .error "no rustdoc"

/-- Claim C6 counterexample: a semver run whose current-revision
extraction fails performs zero switches and zero restores, not exactly
one of each as claimed for every run. -/
theorem c6_counterexample_zero_switches :
    exceptOk (check_semver exC6 ["a"] "m6" "b6").result = false
  ∧ (check_semver exC6 ["a"] "m6" "b6").trace.countP isDetach = 0
  ∧ (check_semver exC6 ["a"] "m6" "b6").trace.countP isRestore = 0 := by
  refine ⟨rfl, rfl, rfl⟩

/-- Claim C6 (amended): every semver run performs at most one switch to
the baseline and at most one restoring switch; a run in which both
extraction phases complete performs exactly one of each; and whenever the
switch to the baseline happens at all, the current-revision snapshots of
all requested packages have been fully extracted before it: the trace is
the complete current-extraction trace, then the detaching switch, then
the rest. -/
theorem c6_amended_switch_discipline
    (ex : String → String → FeatureConfig → Except String PublicApi)
    (pkgs : List String) (origRef baselineRef : String) :
    ((check_semver ex pkgs origRef baselineRef).trace.countP isDetach ≤ 1)
  ∧ ((check_semver ex pkgs origRef baselineRef).trace.countP isRestore ≤ 1)
  ∧ (exceptOk (extractAllGo (ex origRef) origRef pkgs []).1 = true →
     exceptOk (extractAllGo (ex baselineRef) baselineRef pkgs []).1 = true →
      (check_semver ex pkgs origRef baselineRef).trace.countP isDetach = 1 ∧
      (check_semver ex pkgs origRef baselineRef).trace.countP isRestore = 1)
  ∧ (exceptOk (extractAllGo (ex origRef) origRef pkgs []).1 = true →
      ∃ post,
        (check_semver ex pkgs origRef baselineRef).trace =
          (extractAllGo (ex origRef) origRef pkgs []).2 ++ Event.gitSwitchDetach baselineRef :: post
        ∧ ∀ p ∈ pkgs, ∀ c ∈ catalog,
            Event.extract p c origRef ∈ (extractAllGo (ex origRef) origRef pkgs []).2) := by
  have hzDc : (extractAllGo (ex origRef) origRef pkgs []).2.countP isDetach = 0 :=
    extractAllGo_countP_zero _ _ _ _ isDetach (fun _ _ _ => rfl)
  have hzRc : (extractAllGo (ex origRef) origRef pkgs []).2.countP isRestore = 0 :=
    extractAllGo_countP_zero _ _ _ _ isRestore (fun _ _ _ => rfl)
  have hzDb : (extractAllGo (ex baselineRef) baselineRef pkgs []).2.countP isDetach = 0 :=
    extractAllGo_countP_zero _ _ _ _ isDetach (fun _ _ _ => rfl)
  have hzRb : (extractAllGo (ex baselineRef) baselineRef pkgs []).2.countP isRestore = 0 :=
    extractAllGo_countP_zero _ _ _ _ isRestore (fun _ _ _ => rfl)
  have hmem0 := extractAllGo_ok_events (ex origRef) origRef pkgs []
  rcases hcur : extractAllGo (ex origRef) origRef pkgs [] with ⟨rc, evc⟩
  rw [hcur] at hzDc hzRc hmem0
  have hzDc2 : evc.countP isDetach = 0 := hzDc
  have hzRc2 : evc.countP isRestore = 0 := hzRc
  cases rc with
  | error err =>
    have hsem : (check_semver ex pkgs origRef baselineRef).trace = evc := by
      simp only [check_semver, hcur]
    rw [hsem]
    refine ⟨by rw [hzDc2]; exact Nat.zero_le 1, by rw [hzRc2]; exact Nat.zero_le 1, ?_, ?_⟩
    · intro h1
      exact absurd h1 (by simp [exceptOk])
    · intro h1
      exact absurd h1 (by simp [exceptOk])
  | ok curApis =>
    rcases hbase : extractAllGo (ex baselineRef) baselineRef pkgs [] with ⟨rb, evb⟩
    rw [hbase] at hzDb hzRb
    have hzDb2 : evb.countP isDetach = 0 := hzDb
    have hzRb2 : evb.countP isRestore = 0 := hzRb
    have hmemc : ∀ p ∈ pkgs, ∀ c ∈ catalog, Event.extract p c origRef ∈ evc :=
      fun p hp c hc => hmem0 (by simp [exceptOk]) p hp c hc
    cases rb with
    | error err =>
      have hsem : (check_semver ex pkgs origRef baselineRef).trace =
          (evc ++ [Event.gitSwitchDetach baselineRef]) ++ evb := by
        simp only [check_semver, hcur, hbase]
      rw [hsem]
      refine ⟨?_, ?_, ?_, ?_⟩
      · simp [List.countP_append, hzDc2, hzDb2, isDetach]
      · simp [List.countP_append, hzRc2, hzRb2, isRestore]
      · intro _ h2
        exact absurd h2 (by simp [exceptOk])
      · intro _
        exact ⟨evb, by simp, hmemc⟩
    | ok baseApis =>
      rcases hcp : comparePhase baseApis curApis pkgs with ⟨rp, evp⟩
      have hzDp : evp.countP isDetach = 0 := by
        have hq := comparePhase_countP_zero pkgs baseApis curApis isDetach
          (fun _ => rfl) (fun _ => rfl)
        rw [hcp] at hq
        exact hq
      have hzRp : evp.countP isRestore = 0 := by
        have hq := comparePhase_countP_zero pkgs baseApis curApis isRestore
          (fun _ => rfl) (fun _ => rfl)
        rw [hcp] at hq
        exact hq
      have hsem : (check_semver ex pkgs origRef baselineRef).trace =
          ((evc ++ [Event.gitSwitchDetach baselineRef]) ++ evb ++ [Event.gitSwitch origRef]) ++ evp := by
        simp only [check_semver, hcur, hbase, hcp]
      rw [hsem]
      refine ⟨?_, ?_, ?_, ?_⟩
      · simp [List.countP_append, hzDc2, hzDb2, hzDp, isDetach]
      · simp [List.countP_append, hzRc2, hzRb2, hzRp, isRestore]
      · intro _ _
        constructor
        · simp [List.countP_append, hzDc2, hzDb2, hzDp, isDetach]
        · simp [List.countP_append, hzRc2, hzRb2, hzRp, isRestore]
      · intro _
        refine ⟨evb ++ [Event.gitSwitch origRef] ++ evp, by simp, hmemc⟩

/-- Extraction environment that always succeeds, for the C6 witness. -/
def exW6 : String → String → FeatureConfig → Except String PublicApi :=
  fun _rev _pkg _cfg => .ok []

theorem c6_amended_switch_discipline_witness :
    ((check_semver exW6 ["a"] "m" "b").trace.countP isDetach = 1
  ∧ (check_semver exW6 ["a"] "m" "b").trace.countP isRestore = 1)
  ∧ ∃ post,
      (check_semver exW6 ["a"] "m" "b").trace =
        (extractAllGo (exW6 "m") "m" ["a"] []).2 ++ Event.gitSwitchDetach "b" :: post
      ∧ ∀ p ∈ ["a"], ∀ c ∈ catalog,
          Event.extract p c "m" ∈ (extractAllGo (exW6 "m") "m" ["a"] []).2 := by
  have h := c6_amended_switch_discipline exW6 ["a"] "m" "b"
  exact ⟨h.2.2.1 rfl rfl, h.2.2.2 rfl⟩

/-- Extraction outcomes (revision-independent) with one non-additive
package, for the C9 counterexample. -/
def exC9 : String → String → FeatureConfig → Except String PublicApi :=
  fun _rev _pkg cfg =>
    match cfg with
    | .none => .ok [⟨"m::foo", "pub fn foo()"⟩, ⟨"m::Baz", "pub struct Baz"⟩]
    | .alloc => .ok [⟨"m::foo", "pub fn foo()"⟩]
    | .all => .ok [⟨"m::foo", "pub fn foo()"⟩]

/-- Claim C9 counterexample: a no-baseline run can fail although the
working-tree status query reports no differences — here the run fails
with the non-additive error before the status query is even made (no
`git status` event in the trace), while the status output is empty. -/
theorem c9_counterexample_fails_without_status_difference :
    exceptOk (runTask exC9 ["a"] "m9" Option.none "").1 = false
  ∧ strTrim "" = ""
  ∧ Event.gitStatus ∉ (runTask exC9 ["a"] "m9" Option.none "").2 := by
  refine ⟨rfl, by decide, by decide⟩

/-- Claim C9 (amended): with a baseline ref, the run executes the semver
flow, whose trace contains no file write and no status query; with no
baseline ref, provided extraction succeeds and every package's features
are additive, the run writes each package's snapshot for each
configuration to `api/<package>/<config-file-name>`, performs the status
query, and succeeds exactly when the query output is empty after
trimming. -/
theorem c9_dispatch (ex : String → String → FeatureConfig → Except String PublicApi)
    (pkgs : List String) (origRef baselineRef st : String)
    (apiOf : String → FeatureConfig → PublicApi)
    (hok : ∀ p ∈ pkgs, ∀ c, ex origRef p c = .ok (apiOf p c))
    (hadd : ∀ p ∈ pkgs,
      isBreaking (diffApis (apiOf p FeatureConfig.none) (apiOf p FeatureConfig.all)) = false) :
    (∀ e ∈ (runTask ex pkgs origRef (some baselineRef) st).2,
        (∀ p f a, e ≠ Event.write p f a) ∧ e ≠ Event.gitStatus)
  ∧ (exceptOk (runTask ex pkgs origRef Option.none st).1 = true ↔ strTrim st = "")
  ∧ (∀ p ∈ pkgs, ∀ c ∈ catalog,
        Event.write p (apiPath p c) (apiOf p c) ∈ (runTask ex pkgs origRef Option.none st).2)
  ∧ Event.gitStatus ∈ (runTask ex pkgs origRef Option.none st).2 := by
  have hgo : checkApisGo (ex origRef) pkgs =
      (.ok (), (pkgs.map (fun q => pkgWrites q (apiOf q))).flatten) := by
    have h := checkApisGo_ok_prefix (ex origRef) apiOf pkgs [] hok hadd
    simpa [checkApisGo] using h
  have hrun : runTask ex pkgs origRef Option.none st = check_apis (ex origRef) pkgs st := rfl
  refine ⟨?_, ?_, ?_, ?_⟩
  · intro e he
    exact check_semver_events ex pkgs origRef baselineRef e he
  · rw [hrun]
    by_cases hst : strTrim st = ""
    · simp [check_apis, hgo, hst, exceptOk]
    · simp [check_apis, hgo, hst, exceptOk]
  · intro p hp c hc
    rw [hrun]
    have hw : Event.write p (apiPath p c) (apiOf p c) ∈
        (pkgs.map (fun q => pkgWrites q (apiOf q))).flatten :=
      List.mem_flatten.mpr ⟨pkgWrites p (apiOf p), List.mem_map.mpr ⟨p, hp, rfl⟩,
        mem_pkgWrites p (apiOf p) c hc⟩
    by_cases hst : strTrim st = ""
    · simp only [check_apis, hgo, if_pos hst]
      exact List.mem_append.mpr (Or.inl hw)
    · simp only [check_apis, hgo, if_neg hst]
      exact List.mem_append.mpr (Or.inl hw)
  · rw [hrun]
    by_cases hst : strTrim st = ""
    · simp only [check_apis, hgo, if_pos hst]
      simp
    · simp only [check_apis, hgo, if_neg hst]
      simp

/-- Additive, always-succeeding extraction for the C9 witness. -/
def exW9 : String → String → FeatureConfig → Except String PublicApi :=
  fun _rev _pkg _cfg => .ok []

theorem c9_dispatch_witness :
    (exceptOk (runTask exW9 ["a"] "m" Option.none "").1 = true ↔ strTrim "" = "")
  ∧ Event.gitStatus ∈ (runTask exW9 ["a"] "m" Option.none "").2
  ∧ (∀ e ∈ (runTask exW9 ["a"] "m" (some "b") "").2,
      (∀ p f a, e ≠ Event.write p f a) ∧ e ≠ Event.gitStatus) := by
  have h := c9_dispatch exW9 ["a"] "m" "b" "" (fun _ _ => [])
    (fun p _ c => rfl) (fun p _ => rfl)
  exact ⟨h.2.1, h.2.2.2, h.1⟩
